import Mathlib

/-!
Verification of the `opencode-plugin-preload-skills` engine.

This file shallowly embeds the plugin's core (trigger resolution, token
budgeting, per-session state, injection orchestration) as executable Lean
definitions translated from the TypeScript sources:

  - `src/utils.ts`                (glob matcher, condition checks, keywords)
  - `src/skills/loader.ts`        (skill loading, token estimation, budget
                                   filter, injection formatting)
  - `src/skills/resolver.ts`      (group expansion, `loadWithBudget`)
  - `src/session/manager.ts`      (`SessionManagerImpl`)
  - `src/hooks/chat-message.ts`, `src/hooks/lifecycle.ts` (hook handlers)
  - `src/index.ts`                (plugin initialisation)

File-system reads (`existsSync`, `readFileSync`), the process environment and
the frontmatter parser (declared an out-of-scope external collaborator with a
fixed data contract by the design document) are modelled as explicit
environment parameters; JavaScript `Map`/`Set` state is modelled as
association / deduplicated lists in insertion order; JS numbers holding token
counts are `Nat`, the configurable cap is `Int` (a JSON number may be
negative); JS truthiness tests are made explicit at each use site.
-/

namespace PreloadSkills

/-! ## Association-list model of JS `Map` (insertion order preserved) -/

/-- `Map.get`: first (unique, by construction) binding for a key. -/
def lookupA {α : Type} : List (String × α) → String → Option α
  | [], _ => none
  | (k, v) :: rest, key => if key = k then some v else lookupA rest key

/-- `Map.set`: replace an existing binding in place, else append. -/
def setA {α : Type} : List (String × α) → String → α → List (String × α)
  | [], key, v => [(key, v)]
  | (k, w) :: rest, key, v =>
    if key = k then (key, v) :: rest else (k, w) :: setA rest key v

/-- `Map.delete`. -/
def delA {α : Type} : List (String × α) → String → List (String × α)
  | [], _ => []
  | (k, v) :: rest, key =>
    if k = key then delA rest key else (k, v) :: delA rest key

/-- `Set.add`: appends only when the element is absent (insertion order). -/
def addIfAbsent (l : List String) (x : String) : List String :=
  if x ∈ l then l else l ++ [x]

/-- `[...new Set(list)]`: deduplicate keeping the first occurrence of each
element, preserving order. -/
def dedupFirstGo (seen : List String) : List String → List String
  | [] => []
  | x :: xs => if x ∈ seen then dedupFirstGo seen xs else x :: dedupFirstGo (x :: seen) xs

def dedupFirst (l : List String) : List String := dedupFirstGo [] l

/-! ## `src/utils.ts` -/

/-- `estimateTokens`: `Math.ceil(text.length / 4)`. -/
def estimateTokens (text : String) : Nat := (text.length + 3) / 4

/-! ### Glob matcher (`matchGlobPattern`)

`matchGlobPattern` rewrites the glob into a JS regex in four sequential
global-replace passes (`**/`, `**`, `*`, `?`, via collision-free placeholder
strings), escapes the remaining literal regex metacharacters, substitutes the
regex fragments `(?:[^/]+/)*`, `.*`, `[^/]*`, `[^/]` back in for the
placeholders, and tests the path against the result anchored as `^...$`.

The embedding performs the same sequential leftmost non-overlapping
replacement passes over the character list, producing a small regex AST
(`GTok`); escaping a literal metacharacter does not change which character
the resulting regex atom matches, so the escape pass is the identity on this
AST.  `rmatch` implements the (anchored, full-string) semantics of the five
kinds of regex atom that can occur. -/

inductive GTok where
  | lit (c : Char)  -- an (escaped) literal character
  | dss             -- `(?:[^/]+/)*`, from `**/`
  | ds              -- `.*`, from `**`
  | ss              -- `[^/]*`, from `*`
  | q               -- `[^/]`, from `?`
deriving DecidableEq, Repr

/-- First pass: `.replace(/\*\*\//g, ...)`. -/
def globPass1 : List Char → List GTok
  | '*' :: '*' :: '/' :: rest => .dss :: globPass1 rest
  | c :: rest => .lit c :: globPass1 rest
  | [] => []

/-- Second pass: `.replace(/\*\*/g, ...)`. -/
def globPass2 : List GTok → List GTok
  | .lit '*' :: .lit '*' :: rest => .ds :: globPass2 rest
  | t :: rest => t :: globPass2 rest
  | [] => []

/-- Third pass: `.replace(/\*/g, ...)`. -/
def globPass3 : List GTok → List GTok
  | .lit '*' :: rest => .ss :: globPass3 rest
  | t :: rest => t :: globPass3 rest
  | [] => []

/-- Fourth pass: `.replace(/\?/g, ...)`. -/
def globPass4 : List GTok → List GTok
  | .lit '?' :: rest => .q :: globPass4 rest
  | t :: rest => t :: globPass4 rest
  | [] => []

def globTranslate (pattern : String) : List GTok :=
  globPass4 (globPass3 (globPass2 (globPass1 pattern.toList)))

/-- Split a character list at its first `'/'` (segment before, rest after);
`none` when it contains no slash.  Used for the `(?:[^/]+/)*` atom: one
iteration of the group consumes a non-empty slash-free segment plus the
slash terminating it, which is necessarily the first slash of the input. -/
def splitFirstSlash : List Char → Option (List Char × List Char)
  | [] => none
  | c :: rest =>
    if c = '/' then some ([], rest)
    else
      match splitFirstSlash rest with
      | some (seg, after) => some (c :: seg, after)
      | none => none

/-- Anchored full-string matching for the translated pattern, with an
explicit fuel argument for structural recursion.  Every recursive call
strictly decreases `2 * cs.length + ts.length`, so fuel
`2 * cs.length + ts.length + 1` (supplied by `rmatch`) is never exhausted. -/
def rmatchGo : Nat → List GTok → List Char → Bool
  | 0, _, _ => false
  | _ + 1, [], [] => true
  | _ + 1, [], _ :: _ => false
  | _ + 1, .lit _ :: _, [] => false
  | fuel + 1, .lit c :: ts, x :: xs => c = x && rmatchGo fuel ts xs
  | _ + 1, .q :: _, [] => false
  | fuel + 1, .q :: ts, x :: xs => x ≠ '/' && rmatchGo fuel ts xs
  | fuel + 1, .ds :: ts, cs =>
    rmatchGo fuel ts cs ||
      (match cs with
       | [] => false
       | _ :: xs => rmatchGo fuel (.ds :: ts) xs)
  | fuel + 1, .ss :: ts, cs =>
    rmatchGo fuel ts cs ||
      (match cs with
       | [] => false
       | x :: xs => x ≠ '/' && rmatchGo fuel (.ss :: ts) xs)
  | fuel + 1, .dss :: ts, cs =>
    rmatchGo fuel ts cs ||
      (match splitFirstSlash cs with
       | some (seg, after) => !seg.isEmpty && rmatchGo fuel (.dss :: ts) after
       | none => false)

def rmatch (ts : List GTok) (cs : List Char) : Bool :=
  rmatchGo (2 * cs.length + ts.length + 1) ts cs

/-- `matchGlobPattern(filePath, pattern)` from `src/utils.ts`. -/
def matchGlobPattern (filePath pattern : String) : Bool :=
  rmatch (globTranslate pattern) filePath.toList

/-! ### Keyword matching -/

/-- Leading-segment test on character lists (`startsL p s` holds when `s`
begins with `p`). -/
def startsL : List Char → List Char → Bool
  | [], _ => true
  | _ :: _, [] => false
  | a :: as, b :: bs => a = b && startsL as bs

/-- `String.prototype.startsWith`, on the character-list view. -/
def strStartsWith (s p : String) : Bool := startsL p.toList s.toList

/-- `String.prototype.slice(1)`, on the character-list view. -/
def strDropOne (s : String) : String := String.mk (s.toList.drop 1)

/-- `String.prototype.includes` (substring containment; empty needle always
matches). -/
def containsL (needle : List Char) : List Char → Bool
  | [] => needle.isEmpty
  | c :: rest => startsL needle (c :: rest) || containsL needle rest

def strContains (hay needle : String) : Bool := containsL needle.toList hay.toList

/-- `String.prototype.toLowerCase`, on the character-list view. -/
def strToLower (s : String) : String := String.mk (s.toList.map Char.toLower)

/-- `textContainsKeyword`: case-insensitive substring match of any keyword. -/
def textContainsKeyword (text : String) (keywords : List String) : Bool :=
  let lowerText := strToLower text
  keywords.any fun kw => strContains lowerText (strToLower kw)

/-! ### Condition evaluation (`checkCondition`) -/

structure ConditionCheck where
  fileExists : Option String
  packageHasDependency : Option String
  envVar : Option String
deriving DecidableEq

/-- `package.json` dependency maps, as parsed by `JSON.parse`. -/
structure PackageJson where
  dependencies : List (String × String)
  devDependencies : List (String × String)
  peerDependencies : List (String × String)

/-- Environment of the process: `existsSync`, the parsed project
`package.json` (`none` = file missing or `JSON.parse` threw) and
`process.env`. -/
structure FsEnv where
  fileExistsAt : String → Bool
  packageJson : Option PackageJson
  envValue : String → Option String

/-- `node:path` `join(dir, rel)` as used here (no normalisation needed). -/
def pathJoin (a b : String) : String := a ++ "/" ++ b

/-- `{...dependencies, ...devDependencies, ...peerDependencies}[name]`:
the later spreads win. -/
def mergedDep (pj : PackageJson) (name : String) : Option String :=
  match lookupA pj.peerDependencies name with
  | some v => some v
  | none =>
    match lookupA pj.devDependencies name with
    | some v => some v
    | none => lookupA pj.dependencies name

/-- `checkCondition(condition, projectDir)`.  Each `if (condition.X)` is a JS
truthiness test on the field, so a field set to the empty string skips its
clause; `!process.env[v]` and `!deps[name]` are truthiness tests on the
looked-up value, so an empty-string value fails them. -/
def checkCondition (cond : ConditionCheck) (projectDir : String) (fs : FsEnv) : Bool :=
  let fileOk :=
    match cond.fileExists with
    | some f => if f = "" then true else fs.fileExistsAt (pathJoin projectDir f)
    | none => true
  if !fileOk then false else
  let depOk :=
    match cond.packageHasDependency with
    | some d =>
      if d = "" then true
      else if !fs.fileExistsAt (pathJoin projectDir "package.json") then false
      else
        match fs.packageJson with
        | none => false
        | some pj =>
          match mergedDep pj d with
          | some v => decide (v ≠ "")
          | none => false
    | none => true
  if !depOk then false else
  match cond.envVar with
  | some v =>
    if v = "" then true
    else
      match fs.envValue v with
      | some s => decide (s ≠ "")
      | none => false
  | none => true

/-! ## `src/skills/loader.ts` -/

/-- A skill as used by the engine (`ParsedSkill` in `src/types.ts`). -/
structure ParsedSkill where
  name : String
  description : String
  summary : Option String
  content : String
  filePath : String
  tokenCount : Nat
deriving DecidableEq

/-- The data contract of one on-disk `SKILL.md`, as seen by `loadSkill` after
`findSkillFile` + `readFileSync` + the frontmatter parser (the parser itself
is an out-of-scope external collaborator per the design document): `path` and
`content` of the first file found on the search path, the optional
frontmatter `name`/`description`/`summary` fields, and the summary
`extractAutoSummary` would synthesise from the body. -/
structure SkillFile where
  path : String
  content : String
  fmName : Option String
  fmDescription : Option String
  fmSummary : Option String
  autoSummary : String
deriving DecidableEq

/-- The reachable part of the disk: for each configured skill name, the
`SKILL.md` it resolves to (searching the four skill directories in order), or
`none` when no file is found or it cannot be read. -/
def Disk : Type := String → Option SkillFile

/-- `loadSkill(skillName, projectDir)`: the frontmatter `name` (when present)
overrides the requested name; the summary falls back to the auto-extracted
one; the token count is estimated from the raw content. -/
def loadSkill (disk : Disk) (skillName : String) : Option ParsedSkill :=
  (disk skillName).map fun f =>
    { name := f.fmName.getD skillName
      description := f.fmDescription.getD ""
      summary := some (f.fmSummary.getD f.autoSummary)
      content := f.content
      filePath := f.path
      tokenCount := estimateTokens f.content }

/-- `loadSkills(skillNames, projectDir)`: input order preserved, missing
entries silently omitted.  (The `!Array.isArray` guard is a JS type guard
with no counterpart on typed lists.) -/
def loadSkills (disk : Disk) (skillNames : List String) : List ParsedSkill :=
  skillNames.filterMap (loadSkill disk)

/-- `calculateTotalTokens`: `reduce((sum, skill) => sum + skill.tokenCount, 0)`. -/
def calculateTotalTokens (skills : List ParsedSkill) : Nat :=
  skills.foldl (fun sum sk => sum + sk.tokenCount) 0

/-- The loop body of `filterSkillsByTokenBudget`, with the running
`totalTokens` accumulator explicit: a skill is kept iff adding it keeps the
running total of *kept* skills within `maxTokens`; a skill that does not fit
is skipped and the scan continues with the total unchanged. -/
def filterGo (maxTokens : Int) : List ParsedSkill → Nat → List ParsedSkill
  | [], _ => []
  | sk :: rest, tot =>
    if ((tot + sk.tokenCount : Nat) : Int) ≤ maxTokens then
      sk :: filterGo maxTokens rest (tot + sk.tokenCount)
    else
      filterGo maxTokens rest tot

/-- `filterSkillsByTokenBudget(skills, maxTokens)` from `src/skills/loader.ts`. -/
def filterSkillsByTokenBudget (skills : List ParsedSkill) (maxTokens : Int) : List ParsedSkill :=
  filterGo maxTokens skills 0

/-- Per-skill settings (`SkillSettings`). -/
structure SkillSettings where
  useSummary : Option Bool
deriving DecidableEq

/-- `FormatOptions` for `formatSkillsForInjection`. -/
structure FormatOptions where
  useSummaries : Bool
  useMinification : Bool
  skillSettings : List (String × SkillSettings)

/-- `formatSkillsForInjection(skills, options)`: per-skill envelope tags in an
outer wrapper; summary vs. full content chosen by the per-skill override
falling back to the global flag (and only when the summary is a non-empty
string, per JS truthiness); empty input gives the empty string.  The
`minifyContent` whitespace/comment transform applied when
`options.useMinification` is set is passed in as the function `minify` (its
definition is irrelevant to every property proved here). -/
def formatSkillsForInjection (minify : String → String)
    (skills : List ParsedSkill) (opts : FormatOptions) : String :=
  if skills.isEmpty then "" else
  let parts := skills.map fun sk =>
    let perSkill : Option Bool := (lookupA opts.skillSettings sk.name).bind (·.useSummary)
    let useSum := perSkill.getD opts.useSummaries
    let content :=
      match sk.summary with
      | some s => if useSum ∧ s ≠ "" then s else sk.content
      | none => sk.content
    let content := if opts.useMinification then minify content else content
    "<preloaded-skill name=\"" ++ sk.name ++ "\">\n" ++ content ++ "\n</preloaded-skill>"
  "<preloaded-skills>\nThe following skills have been automatically loaded for this session:\n\n"
    ++ String.intercalate "\n\n" parts ++ "\n</preloaded-skills>"

/-! ## `src/skills/resolver.ts` -/

/-- `resolveSkillGroups(skillNames, groups)`: a name starting with `@` whose
group exists is replaced by the group's member list (an existing empty group
is truthy in JS and expands to nothing); anything else passes through as a
literal name; the result is deduplicated by `[...new Set(...)]`. -/
def resolveSkillGroups (skillNames : List String) (groups : List (String × List String)) :
    List String :=
  dedupFirst (skillNames.flatMap fun name =>
    if strStartsWith name "@" then
      match lookupA groups (strDropOne name) with
      | some members => members
      | none => [name]
    else [name])

/-! ## Configuration (`src/types.ts`, `src/config/loader.ts`) -/

inductive InjectionMethod where
  | systemPrompt
  | chatMessage
deriving DecidableEq

inductive TriggerType where
  | initial
  | fileType
  | agent
  | path
  | content
  | conditional
deriving DecidableEq

/-- The resolved configuration (defaults merged with the config file).  Only
the fields the verified core reads are modelled.  `maxTokens` is an `Int`
`Option` because a JSON number may be negative and `undefined` means
"no cap"; the code guards budget enforcement with the JS truthiness test
`if (config.maxTokens)`, which is false for both `undefined` and `0`. -/
structure Config where
  skills : List String
  agentSkills : List (String × List String)
  contentTriggers : List (String × List String)
  groups : List (String × List String)
  conditionalSkills : List (String × ConditionCheck)
  skillSettings : List (String × SkillSettings)
  maxTokens : Option Int
  useSummaries : Bool
  useMinification : Bool
  injectionMethod : InjectionMethod
  persistAfterCompaction : Bool
  analytics : Bool

def Config.formatOptions (cfg : Config) : FormatOptions :=
  { useSummaries := cfg.useSummaries
    useMinification := cfg.useMinification
    skillSettings := cfg.skillSettings }

/-- `SkillResolverImpl.loadWithBudget` (`src/skills/resolver.ts`): expand
groups, load, and — only when `config.maxTokens` is truthy — keep what fits
in the remaining budget `maxTokens - currentTokens`.  (The write into the
resolver's private `skillCache`, which only feeds its unused `getCachedSkill`
accessor, has no observable effect here.) -/
structure LoadSkillsResult where
  skills : List ParsedSkill
  tokensUsed : Nat
deriving DecidableEq

def loadWithBudget (cfg : Config) (disk : Disk) (skillNames : List String)
    (currentTokens : Nat) : LoadSkillsResult :=
  let resolved := resolveSkillGroups skillNames cfg.groups
  let skills := loadSkills disk resolved
  let skills :=
    match cfg.maxTokens with
    | some m =>
      if m ≠ 0 then filterSkillsByTokenBudget skills (m - (currentTokens : Int))
      else skills
    | none => skills
  { skills := skills, tokensUsed := calculateTotalTokens skills }

/-! ## Session store (`src/session/manager.ts`, `SessionManagerImpl`) -/

structure SessionState where
  initialSkillsInjected : Bool
  loadedSkills : List String   -- a JS `Set` in insertion order
  totalTokensUsed : Nat
deriving DecidableEq

structure SkillUsageStats where
  skillName : String
  loadCount : Nat
  triggerType : TriggerType
  firstLoaded : Nat
  lastLoaded : Nat
deriving DecidableEq

/-- The mutable maps owned by one `SessionManagerImpl` together with its
constructor arguments (`config.analytics`, the initial skill-name set and the
initial token total).  The `pendingFilePaths` call-id cache is owned by the
tool-execute hooks and unused by the handlers modelled here. -/
structure Manager where
  analyticsEnabled : Bool
  initialSkillNames : List String
  initialTokensUsed : Nat
  sessions : List (String × SessionState)
  pending : List (String × List ParsedSkill)
  analytics : List (String × List (String × SkillUsageStats))
  skillCache : List (String × ParsedSkill)
deriving DecidableEq

/-- `getState`: return the existing state or lazily create one seeded with
the initial skill names and token total (the flag starts `false`). -/
def getState (m : Manager) (sid : String) : SessionState × Manager :=
  match lookupA m.sessions sid with
  | some st => (st, m)
  | none =>
    let st : SessionState :=
      { initialSkillsInjected := false
        loadedSkills := dedupFirst m.initialSkillNames
        totalTokensUsed := m.initialTokensUsed }
    (st, { m with sessions := setA m.sessions sid st })

/-- One `trackUsage` update of a session's per-skill stats map: bump
`loadCount`/`lastLoaded` for a known skill, else insert a fresh record with
the supplied trigger type.  `now` is the external clock (`Date.now()`). -/
def trackUsageData (data : List (String × SkillUsageStats)) (skillName : String)
    (tt : TriggerType) (now : Nat) : List (String × SkillUsageStats) :=
  match lookupA data skillName with
  | some stats =>
    setA data skillName { stats with loadCount := stats.loadCount + 1, lastLoaded := now }
  | none =>
    setA data skillName
      { skillName := skillName, loadCount := 1, triggerType := tt
        firstLoaded := now, lastLoaded := now }

/-- The `cacheSkill` loop: `skillCache.set(skill.name, skill)` per skill. -/
def cacheManySkills (cache : List (String × ParsedSkill)) (skills : List ParsedSkill) :
    List (String × ParsedSkill) :=
  skills.foldl (fun c sk => setA c sk.name sk) cache

/-- `queueSkills(sessionId, skills, triggerType)`: drop skills whose name is
already in the loaded set; if nothing is left, return unchanged; otherwise
add the new names to the loaded set, add their token counts to the total,
cache them, record analytics (when enabled) and append them to the pending
queue.  The per-skill mutation loop of the source is written as the
equivalent single state update (each map is touched by exactly one fold). -/
def queueSkills (m0 : Manager) (sid : String) (skills : List ParsedSkill)
    (tt : TriggerType) (now : Nat) : Manager :=
  let p := getState m0 sid
  let st := p.1
  let m := p.2
  let newSkills := skills.filter (fun sk => decide (sk.name ∉ st.loadedSkills))
  if newSkills.isEmpty then m else
    let st' : SessionState :=
      { st with
        loadedSkills := newSkills.foldl (fun acc sk => addIfAbsent acc sk.name) st.loadedSkills
        totalTokensUsed := st.totalTokensUsed + calculateTotalTokens newSkills }
    let analytics' :=
      if m.analyticsEnabled then
        setA m.analytics sid
          (newSkills.foldl (fun d sk => trackUsageData d sk.name tt now)
            ((lookupA m.analytics sid).getD []))
      else m.analytics
    { m with
      sessions := setA m.sessions sid st'
      skillCache := cacheManySkills m.skillCache newSkills
      analytics := analytics'
      pending := setA m.pending sid (((lookupA m.pending sid).getD []) ++ newSkills) }

/-- `getPendingSkills` (read without clearing). -/
def getPendingSkills (m : Manager) (sid : String) : List ParsedSkill :=
  (lookupA m.pending sid).getD []

/-- `clearPendingSkills`. -/
def clearPendingSkills (m : Manager) (sid : String) : Manager :=
  { m with pending := delA m.pending sid }

/-- `getAllLoadedSkills`: reconstruct the loaded skill objects from the
shared cache; an untracked session yields `[]`. -/
def getAllLoadedSkills (m : Manager) (sid : String) : List ParsedSkill :=
  match lookupA m.sessions sid with
  | none => []
  | some st => st.loadedSkills.filterMap (fun n => lookupA m.skillCache n)

/-- `markInitialSkillsInjected`: despite its name, this *resets* the flag to
`false` (it is called from the compaction handler so skills are re-rendered
on the next injection). -/
def markInitialSkillsInjected (m : Manager) (sid : String) : Manager :=
  let p := getState m sid
  { p.2 with sessions := setA p.2.sessions sid { p.1 with initialSkillsInjected := false } }

/-- `cleanup(sessionId)`: drop session state, pending queue and analytics
for the id (the final `saveAnalytics` is a file write with no in-memory
effect). -/
def cleanup (m : Manager) (sid : String) : Manager :=
  { m with
    sessions := delA m.sessions sid
    pending := delA m.pending sid
    analytics := delA m.analytics sid }

/-! ## Plugin initialisation (`src/index.ts`) -/

/-- `resolveConditionalSkills`: the conditional skills whose condition holds. -/
def resolveConditionalSkills (cfg : Config) (projectDir : String) (fs : FsEnv) :
    List String :=
  (cfg.conditionalSkills.filter (fun p => checkCondition p.2 projectDir fs)).map (·.1)

structure InitResult where
  initialSkills : List ParsedSkill
  initialTokensUsed : Nat
deriving DecidableEq

/-- The initial load at plugin startup: always-load plus satisfied
conditional skills, groups expanded, loaded from disk; if a cap is truthy
and the total exceeds it, the list is re-filtered to the budget. -/
def pluginInit (cfg : Config) (projectDir : String) (fs : FsEnv) (disk : Disk) :
    InitResult :=
  let allInitialSkillNames := cfg.skills ++ resolveConditionalSkills cfg projectDir fs
  let resolvedInitialNames := resolveSkillGroups allInitialSkillNames cfg.groups
  let initialSkills := loadSkills disk resolvedInitialNames
  let t := calculateTotalTokens initialSkills
  match cfg.maxTokens with
  | some m =>
    if m ≠ 0 ∧ (t : Int) > m then
      let filtered := filterSkillsByTokenBudget initialSkills m
      { initialSkills := filtered, initialTokensUsed := calculateTotalTokens filtered }
    else { initialSkills := initialSkills, initialTokensUsed := t }
  | none => { initialSkills := initialSkills, initialTokensUsed := t }

/-- The `SessionManagerImpl` as constructed by the plugin: seeded with the
initial skill names and token total, with every initial skill cached. -/
def initManager (cfg : Config) (init : InitResult) : Manager :=
  { analyticsEnabled := cfg.analytics
    initialSkillNames := init.initialSkills.map (·.name)
    initialTokensUsed := init.initialTokensUsed
    sessions := []
    pending := []
    analytics := []
    skillCache := cacheManySkills [] init.initialSkills }

/-- The "missing" names reported by the startup log (`src/index.ts`):
configured names that are not among the *names of the loaded skills*. -/
def initialMissingNames (cfgSkills : List String) (disk : Disk) : List String :=
  let loadedNames := (loadSkills disk cfgSkills).map (·.name)
  cfgSkills.filter (fun s => decide (s ∉ loadedNames))

/-! ## Hook handlers (`src/hooks/chat-message.ts`, `src/hooks/lifecycle.ts`,
`src/hooks/tool-execute.ts`) -/

/-- The per-plugin-instance context the hook factories close over. -/
structure HookCtx where
  cfg : Config
  initialSkills : List ParsedSkill
  initialFormattedContent : String

structure Part where
  ptype : String
  text : Option String
deriving DecidableEq

structure ChatInput where
  sessionID : String
  agent : Option String
deriving DecidableEq

/-- The shared trigger shape of every hook call site:
`skillResolver.loadWithBudget(names, state.totalTokensUsed, …)` followed by
`sessionManager.queueSkills(…)` when anything was kept.  (All call sites run
after the session state has been materialised, so the inner `getState` is a
plain read.) -/
def resolveAndQueue (cfg : Config) (disk : Disk) (mgr : Manager) (sid : String)
    (skillNames : List String) (tt : TriggerType) (now : Nat) : Manager :=
  let p := getState mgr sid
  let result := loadWithBudget cfg disk skillNames p.1.totalTokensUsed
  if result.skills.isEmpty then p.2 else queueSkills p.2 sid result.skills tt now

/-- `parts.find((p) => p.type === "text")`, as an index. -/
def findTextPartIdx (parts : List Part) : Option Nat :=
  parts.findIdx? (fun p => decide (p.ptype = "text"))

/-- The trigger-evaluation half of the chat-message hook: agent-keyed skills
(`input.agent` truthy and present in `config.agentSkills`; an existing empty
list is truthy), then each content-trigger keyword matched against the
message text. -/
def chatTriggers (cfg : Config) (disk : Disk) (mgr : Manager) (sid : String)
    (agent : Option String) (messageText : String) (now : Nat) : Manager :=
  let mgr :=
    match agent with
    | some ag =>
      if ag = "" then mgr
      else
        match lookupA cfg.agentSkills ag with
        | some ns => resolveAndQueue cfg disk mgr sid ns .agent now
        | none => mgr
    | none => mgr
  cfg.contentTriggers.foldl
    (fun acc kv =>
      if textContainsKeyword messageText [kv.1] then
        resolveAndQueue cfg disk acc sid kv.2 .content now
      else acc)
    mgr

/-- The injection half of the chat-message hook (only reached when the
injection method is `chatMessage`): prepend the initial block on the first
injection (setting the flag), then the rendered pending queue (consuming
it); returns the manager and the replacement text, if any. -/
def chatInject (hctx : HookCtx) (minify : String → String) (mgr : Manager)
    (sid : String) (messageText : String) : Manager × Option String :=
  let cur := (getState mgr sid).1
  let c1mgr :=
    if ¬ cur.initialSkillsInjected ∧ hctx.initialFormattedContent ≠ "" then
      ([hctx.initialFormattedContent],
        { mgr with sessions := setA mgr.sessions sid { cur with initialSkillsInjected := true } })
    else (([] : List String), mgr)
  let mgr := c1mgr.2
  let pendingL := getPendingSkills mgr sid
  let c2mgr :=
    if pendingL.isEmpty then (([] : List String), mgr)
    else
      let formatted := formatSkillsForInjection minify pendingL hctx.cfg.formatOptions
      ((if formatted = "" then [] else [formatted]), clearPendingSkills mgr sid)
  let contentToInject := c1mgr.1 ++ c2mgr.1
  if contentToInject.isEmpty then (c2mgr.2, none)
  else
    (c2mgr.2,
      some (String.intercalate "\n\n" contentToInject ++ "\n\n---\n\n" ++ messageText))

/-- The `chat.message` handler (`createChatMessageHook`): bail out on a falsy
session id, materialise the session state, bail out when the message has no
text part (or the found part carries no `text` field), evaluate triggers,
and — unless the injection method is `systemPrompt` — prepend the rendered
blocks to the first text part. -/
def chatMessage (hctx : HookCtx) (minify : String → String) (disk : Disk) (now : Nat)
    (mgr : Manager) (input : ChatInput) (parts : List Part) : Manager × List Part :=
  if input.sessionID = "" then (mgr, parts) else
  let sid := input.sessionID
  let mgr := (getState mgr sid).2
  match findTextPartIdx parts with
  | none => (mgr, parts)
  | some i =>
    match parts[i]? with
    | none => (mgr, parts)
    | some part =>
      match part.text with
      | none => (mgr, parts)
      | some messageText =>
        let mgr := chatTriggers hctx.cfg disk mgr sid input.agent messageText now
        if hctx.cfg.injectionMethod = .systemPrompt then (mgr, parts)
        else
          let r := chatInject hctx minify mgr sid messageText
          match r.2 with
          | none => (r.1, parts)
          | some newText => (r.1, parts.set i { part with text := some newText })

/-- The text pushed onto the compaction context. -/
def compactionEntry (minify : String → String) (skills : List ParsedSkill)
    (opts : FormatOptions) : String :=
  "## Preloaded Skills\n\nThe following skills were loaded during this session and should persist:\n\n"
    ++ formatSkillsForInjection minify skills opts

/-- The `experimental.session.compacting` handler (`createLifecycleHooks`):
no-op unless persistence is enabled and the session has loaded skills that
are present in the cache; otherwise push exactly one rendered entry and
reset the injected flag (the trailing `saveAnalytics` is a file write). -/
def compacting (hctx : HookCtx) (minify : String → String) (mgr : Manager)
    (sessionID : String) (context : List String) : Manager × List String :=
  if ¬ hctx.cfg.persistAfterCompaction then (mgr, context) else
  let allLoaded := getAllLoadedSkills mgr sessionID
  if allLoaded.isEmpty then (mgr, context) else
  (markInitialSkillsInjected mgr sessionID,
    context ++ [compactionEntry minify allLoaded hctx.cfg.formatOptions])

/-! ## Event sequences -/

/-- The session-affecting operations a host can drive, used to quantify over
"every sequence of trigger/queue operations":
`trigger` is the tool-execute-after path (session materialised, then
extension- or path-resolved names through `loadWithBudget`/`queueSkills`);
`chatMsg` is the full chat-message handler (agent and keyword triggers plus
injection); `compact` and `sessionDeleted` are the lifecycle handlers. -/
inductive Op where
  | trigger (sid : String) (names : List String) (tt : TriggerType) (now : Nat)
  | chatMsg (input : ChatInput) (parts : List Part) (now : Nat)
  | compact (sid : String)
  | sessionDeleted (sid : String)

def applyOp (hctx : HookCtx) (minify : String → String) (disk : Disk)
    (mgr : Manager) : Op → Manager
  | .trigger sid names tt now => resolveAndQueue hctx.cfg disk mgr sid names tt now
  | .chatMsg input parts now => (chatMessage hctx minify disk now mgr input parts).1
  | .compact sid => (compacting hctx minify mgr sid []).1
  | .sessionDeleted sid => cleanup mgr sid

def applyOps (hctx : HookCtx) (minify : String → String) (disk : Disk)
    (mgr : Manager) (ops : List Op) : Manager :=
  ops.foldl (applyOp hctx minify disk) mgr

/-! ## Supporting lemmas -/

theorem dedupFirstGo_spec :
    ∀ (l seen : List String),
      (dedupFirstGo seen l).Nodup ∧ ∀ x ∈ dedupFirstGo seen l, x ∉ seen := by
  intro l
  induction l with
  | nil => intro seen; simp [dedupFirstGo]
  | cons x xs ih =>
    intro seen
    simp only [dedupFirstGo]
    split
    · refine ⟨(ih seen).1, fun y hy => (ih seen).2 y hy⟩
    · next hx =>
      constructor
      · refine List.nodup_cons.mpr ⟨fun hmem => ?_, (ih (x :: seen)).1⟩
        exact (ih (x :: seen)).2 x hmem (List.mem_cons_self x seen)
      · intro y hy
        rcases List.mem_cons.mp hy with h | h
        · exact h ▸ hx
        · intro hys
          exact (ih (x :: seen)).2 y h (List.mem_cons_of_mem x hys)

theorem dedupFirst_nodup (l : List String) : (dedupFirst l).Nodup :=
  (dedupFirstGo_spec l []).1

/-- Shifting the accumulator out of the token-sum fold. -/
theorem tokensFoldl_shift :
    ∀ (l : List ParsedSkill) (a : Nat),
      l.foldl (fun sum sk => sum + sk.tokenCount) a
        = a + l.foldl (fun sum sk => sum + sk.tokenCount) 0 := by
  intro l
  induction l with
  | nil => intro a; simp
  | cons hd tl ih =>
    intro a
    simp only [List.foldl_cons]
    rw [ih (a + hd.tokenCount), ih (0 + hd.tokenCount)]
    omega

theorem calcTotal_cons (sk : ParsedSkill) (l : List ParsedSkill) :
    calculateTotalTokens (sk :: l) = sk.tokenCount + calculateTotalTokens l := by
  simp only [calculateTotalTokens, List.foldl_cons]
  rw [tokensFoldl_shift l (0 + sk.tokenCount)]
  omega

theorem calcTotal_filter_le (p : ParsedSkill → Bool) :
    ∀ (l : List ParsedSkill),
      calculateTotalTokens (l.filter p) ≤ calculateTotalTokens l := by
  intro l
  induction l with
  | nil => simp
  | cons hd tl ih =>
    rw [List.filter_cons]
    by_cases hp : p hd
    · simp only [hp, if_true, calcTotal_cons]
      omega
    · simp only [hp]
      rw [calcTotal_cons]
      simp only [Bool.false_eq_true, if_false]
      omega

theorem filterGo_sublist (b : Int) :
    ∀ (l : List ParsedSkill) (tot : Nat), (filterGo b l tot).Sublist l := by
  intro l
  induction l with
  | nil => intro tot; simp [filterGo]
  | cons sk rest ih =>
    intro tot
    simp only [filterGo]
    split
    · exact List.Sublist.cons₂ sk (ih (tot + sk.tokenCount))
    · exact List.Sublist.cons sk (ih tot)

theorem filterGo_total_le (b : Int) :
    ∀ (l : List ParsedSkill) (tot : Nat), (tot : Int) ≤ b →
      ((tot + calculateTotalTokens (filterGo b l tot) : Nat) : Int) ≤ b := by
  intro l
  induction l with
  | nil =>
    intro tot htot
    simpa [filterGo, calculateTotalTokens] using htot
  | cons sk rest ih =>
    intro tot htot
    simp only [filterGo]
    split
    · next hfit =>
      have := ih (tot + sk.tokenCount) hfit
      rw [calcTotal_cons]
      push_cast at this ⊢
      omega
    · exact ih tot htot

theorem budgetFilter_total_le (skills : List ParsedSkill) (b : Int) (hb : 0 ≤ b) :
    ((calculateTotalTokens (filterSkillsByTokenBudget skills b) : Nat) : Int) ≤ b := by
  have := filterGo_total_le b skills 0 (by exact_mod_cast hb)
  simpa using this

theorem loadWithBudget_total_le (cfg : Config) (disk : Disk) (names : List String)
    (cur : Nat) (m : Int) (hm : cfg.maxTokens = some m) (hm0 : m ≠ 0)
    (hcur : (cur : Int) ≤ m) :
    ((cur + calculateTotalTokens (loadWithBudget cfg disk names cur).skills : Nat) : Int) ≤ m := by
  simp only [loadWithBudget, hm, hm0, if_true, ne_eq, not_false_eq_true]
  have hb : (0 : Int) ≤ m - (cur : Int) := by omega
  have := budgetFilter_total_le (loadSkills disk (resolveSkillGroups names cfg.groups))
    (m - (cur : Int)) hb
  push_cast at this ⊢
  omega

/-! ## C6 — glob matcher -/

/-- C6: the glob matcher accepts `src/api/users.ts` and `src/api/v1/users.ts`
for pattern `src/api/**` but rejects `src/components/Button.tsx`; `*.ts`
accepts `file.ts` but rejects `filets` (the `.` is matched literally, i.e.
regex metacharacters are escaped before glob tokens are substituted back
in); and the compiled regex is anchored at both ends, so a pattern matching
a strict leading or trailing part of the path does not match. -/
theorem globMatcher_examples :
    matchGlobPattern "src/api/users.ts" "src/api/**" = true
    ∧ matchGlobPattern "src/api/v1/users.ts" "src/api/**" = true
    ∧ matchGlobPattern "src/components/Button.tsx" "src/api/**" = false
    ∧ matchGlobPattern "file.ts" "*.ts" = true
    ∧ matchGlobPattern "filets" "*.ts" = false
    ∧ matchGlobPattern "file.ts" "file" = false
    ∧ matchGlobPattern "file.ts" ".ts" = false := by
  decide

/-! ## C7 — group expansion -/

/-- C7: group expansion replaces an `@`-name whose group exists by the
group's members (one level deep: a member that itself looks like a group
reference is not expanded again), passes an unresolvable `@`-reference
through as a literal name, and deduplicates the result preserving first-seen
order (witnessed in general by `Nodup` of every result, and on the spec's
two examples). -/
theorem group_expansion :
    (∀ (names : List String) (groups : List (String × List String)),
        (resolveSkillGroups names groups).Nodup)
    ∧ resolveSkillGroups ["@g"] [("g", ["a", "b"])] = ["a", "b"]
    ∧ resolveSkillGroups ["@g", "a"] [("g", ["a", "b"])] = ["a", "b"]
    ∧ resolveSkillGroups ["@x"] [("g", ["a", "b"])] = ["@x"]
    ∧ resolveSkillGroups ["@g"] [("g", ["@h"]), ("h", ["x"])] = ["@h"] := by
  refine ⟨fun names groups => dedupFirst_nodup _, by decide, by decide, by decide, by decide⟩

/-! ## C5 — environment-variable condition -/

/-- A process environment in which `CI` is set to the empty string. -/
def envCexFs : FsEnv :=
  { fileExistsAt := fun _ => false
    packageJson := none
    envValue := fun v => if v = "CI" then some "" else none }

/-- C5 counterexample: the claim says a variable that is set, regardless of
its value (including the empty string), satisfies the env-var check; but
`checkCondition`'s clause is the truthiness test `!process.env[v]`, so with
`CI` set to `""` the condition evaluates to `false`. -/
theorem envVar_empty_string_cex :
    envCexFs.envValue "CI" = some "" ∧
    checkCondition ⟨none, none, some "CI"⟩ "/proj" envCexFs = false := by
  exact ⟨rfl, by decide⟩

/-- C5 (amended): the env-var clause tests truthiness of the variable's
value, not mere presence: for a non-empty variable name, a condition
consisting of only an env-var check holds iff the variable is set to a
non-empty string. -/
theorem envVar_truthiness :
    ∀ (fs : FsEnv) (dir v : String), v ≠ "" →
      (checkCondition ⟨none, none, some v⟩ dir fs = true
        ↔ ∃ s, fs.envValue v = some s ∧ s ≠ "") := by
  intro fs dir v hv
  simp only [checkCondition, Bool.not_true, Bool.false_eq_true, if_false, hv, if_neg hv]
  cases henv : fs.envValue v with
  | none => simp
  | some s =>
    by_cases hs : s = ""
    · subst hs; simp
    · simp [hs]

/-- Witness for `envVar_truthiness` at a concrete environment. -/
theorem envVar_truthiness_witness :
    checkCondition ⟨none, none, some "CI"⟩ "/proj"
      ⟨fun _ => false, none, fun v => if v = "CI" then some "yes" else none⟩ = true := by
  have h := envVar_truthiness
    ⟨fun _ => false, none, fun v => if v = "CI" then some "yes" else none⟩
    "/proj" "CI" (by decide)
  exact h.mpr ⟨"yes", rfl, by decide⟩

/-! ## C1 — the budget allocator is not a strict-prefix allocator -/

/-- The allocator the specification describes, defined from its words for
comparison: keep skills in listed order while the running sum fits, and stop
at the first skill that would exceed the budget (dropping it and everything
after it). -/
def greedyStopAtFirst (skills : List ParsedSkill) (budget : Int) : List ParsedSkill :=
  match skills with
  | [] => []
  | sk :: rest =>
    if (sk.tokenCount : Int) ≤ budget then
      sk :: greedyStopAtFirst rest (budget - sk.tokenCount)
    else []

/-- A three-token skill followed by a one-token skill. -/
def skBig : ParsedSkill :=
  { name := "big", description := "", summary := none
    content := "aaaaaaaaaaaa", filePath := "/s/big/SKILL.md", tokenCount := 3 }

def skSmall : ParsedSkill :=
  { name := "small", description := "", summary := none
    content := "aaaa", filePath := "/s/small/SKILL.md", tokenCount := 1 }

/-- C1 counterexample: with token counts `[3, 1]` and budget `2`, the code
keeps the *later, smaller* skill (`filterSkillsByTokenBudget` skips an
over-budget skill and keeps scanning), while the claimed longest-prefix rule
would keep nothing; so the kept set is not the longest prefix, and a skill
after the first one that exceeded the cap is not excluded. -/
theorem budgetFilter_skips_and_continues_cex :
    filterSkillsByTokenBudget [skBig, skSmall] 2 = [skSmall]
    ∧ greedyStopAtFirst [skBig, skSmall] 2 = []
    ∧ filterSkillsByTokenBudget [skBig, skSmall] 2
        ≠ greedyStopAtFirst [skBig, skSmall] 2 := by
  decide

/-- C1 (amended): the budget allocator scans the skills in listed order and
keeps each skill whose token count, added to the running total of the skills
already kept (on top of the tokens already used), stays within the cap; a
skill that would exceed the cap is skipped *individually* and the scan
continues, so a later skill with a smaller token count can still be kept.
Consequences proved: the kept list is a subsequence of the input (order kept,
no partial inclusion), its token total fits in any non-negative budget, the
`loadWithBudget` wrapper never lets `already-used + newly added` exceed a
truthy cap, and on the `[3, 1]`-budget-`2` example the later smaller skill
is kept. -/
theorem budgetFilter_amended :
    (∀ (skills : List ParsedSkill) (b : Int),
        (filterSkillsByTokenBudget skills b).Sublist skills)
    ∧ (∀ (skills : List ParsedSkill) (b : Int), 0 ≤ b →
        ((calculateTotalTokens (filterSkillsByTokenBudget skills b) : Nat) : Int) ≤ b)
    ∧ (∀ (cfg : Config) (disk : Disk) (names : List String) (cur : Nat) (m : Int),
        cfg.maxTokens = some m → m ≠ 0 → (cur : Int) ≤ m →
        ((cur + calculateTotalTokens (loadWithBudget cfg disk names cur).skills : Nat) : Int) ≤ m)
    ∧ filterSkillsByTokenBudget [skBig, skSmall] 2 = [skSmall] := by
  refine ⟨fun skills b => filterGo_sublist b skills 0,
          fun skills b hb => budgetFilter_total_le skills b hb,
          fun cfg disk names cur m hm hm0 hcur =>
            loadWithBudget_total_le cfg disk names cur m hm hm0 hcur,
          by decide⟩

/-- Witness for `budgetFilter_amended` at concrete inputs. -/
theorem budgetFilter_amended_witness :
    (filterSkillsByTokenBudget [skBig, skSmall] 2).Sublist [skBig, skSmall]
    ∧ ((calculateTotalTokens (filterSkillsByTokenBudget [skBig, skSmall] 2) : Nat) : Int) ≤ 2
    ∧ (((3 : Nat) + calculateTotalTokens
          (loadWithBudget
            ⟨[], [], [], [], [], [], some 10, false, false, .chatMessage, true, false⟩
            (fun _ => none) ["x"] 3).skills : Nat) : Int) ≤ 10 := by
  refine ⟨budgetFilter_amended.1 [skBig, skSmall] 2,
          budgetFilter_amended.2.1 [skBig, skSmall] 2 (by decide),
          budgetFilter_amended.2.2.1
            ⟨[], [], [], [], [], [], some 10, false, false, .chatMessage, true, false⟩
            (fun _ => none) ["x"] 3 10 rfl (by decide) (by decide)⟩

/-! ## C9 — the "missing" report and frontmatter name overrides -/

/-- A disk on which the skill directory `foo` exists, its `SKILL.md` carrying
a frontmatter `name: bar` that overrides the configured name. -/
def diskOverride : Disk := fun n =>
  if n = "foo" then
    some { path := "/proj/.opencode/skills/foo/SKILL.md"
           content := "---\nname: bar\n---\nBody"
           fmName := some "bar", fmDescription := none, fmSummary := none
           autoSummary := "Body" }
  else none

/-- C9 counterexample: the startup report computes "missing" as the
configured names not found among the *loaded skills' names*, and a loaded
skill's name is its frontmatter `name` when present; so with skill `foo`
present on disk under a frontmatter `name: bar`, the name `foo` appears in
the missing report even though its file is present, contradicting the claim
that no name whose file is present appears in it. -/
theorem missing_report_overridden_name_cex :
    (diskOverride "foo").isSome = true
    ∧ initialMissingNames ["foo"] diskOverride = ["foo"] := by
  decide

/-- C9 (amended): the missing report contains exactly the configured names
that do not occur among the loaded skills' (frontmatter-resolved) names; in
particular, whenever no present skill file overrides its name via
frontmatter, it contains exactly the configured names absent on disk. -/
theorem missing_report_amended :
    ∀ (cfgSkills : List String) (disk : Disk),
      (∀ n f, disk n = some f → f.fmName = none ∨ f.fmName = some n) →
      ∀ s, s ∈ initialMissingNames cfgSkills disk ↔ s ∈ cfgSkills ∧ disk s = none := by
  intro cfgSkills disk hno s
  have hname : ∀ x, x ∈ (loadSkills disk cfgSkills).map (·.name)
      ↔ x ∈ cfgSkills ∧ (disk x).isSome := by
    intro x
    constructor
    · intro hx
      rcases List.mem_map.mp hx with ⟨sk, hsk, hskname⟩
      rcases List.mem_filterMap.mp hsk with ⟨n, hn, hload⟩
      rcases Option.map_eq_some'.mp hload with ⟨f, hf, hfeq⟩
      have hskn : sk.name = n := by
        rcases hno n f hf with h | h <;> simp [← hfeq, h]
      have hxn : x = n := by rw [← hskname, hskn]
      subst hxn
      exact ⟨hn, by simp [hf]⟩
    · intro ⟨hx, hsome⟩
      rcases Option.isSome_iff_exists.mp hsome with ⟨f, hf⟩
      refine List.mem_map.mpr ⟨?_, List.mem_filterMap.mpr ⟨x, hx, ?_⟩, ?_⟩
      · exact { name := f.fmName.getD x
                description := f.fmDescription.getD ""
                summary := some (f.fmSummary.getD f.autoSummary)
                content := f.content, filePath := f.path
                tokenCount := estimateTokens f.content }
      · simp [loadSkill, hf]
      · rcases hno x f hf with h | h <;> simp [h]
  constructor
  · intro hs
    have hmem := List.mem_filter.mp hs
    have hnotin : s ∉ (loadSkills disk cfgSkills).map (·.name) := by
      simpa using hmem.2
    refine ⟨hmem.1, ?_⟩
    by_cases hd : (disk s).isSome
    · exact absurd ((hname s).mpr ⟨hmem.1, hd⟩) hnotin
    · exact Option.not_isSome_iff_eq_none.mp hd
  · intro ⟨hs, hd⟩
    refine List.mem_filter.mpr ⟨hs, ?_⟩
    simp only [decide_eq_true_eq]
    intro hmem
    have := ((hname s).mp hmem).2
    rw [hd] at this
    simp at this

/-- Witness for `missing_report_amended` on a concrete configuration and
disk without frontmatter overrides. -/
theorem missing_report_amended_witness :
    ("ghost" ∈ initialMissingNames ["real", "ghost"]
        (fun n => if n = "real"
          then some ⟨"/p/SKILL.md", "Body", none, none, none, "Body"⟩ else none)
      ↔ "ghost" ∈ ["real", "ghost"]
        ∧ (fun n => if n = "real"
            then some (⟨"/p/SKILL.md", "Body", none, none, none, "Body"⟩ : SkillFile)
            else none) "ghost" = none) := by
  exact missing_report_amended ["real", "ghost"]
    (fun n => if n = "real" then some ⟨"/p/SKILL.md", "Body", none, none, none, "Body"⟩ else none)
    (by intro n f hf
        by_cases hn : n = "real"
        · subst hn; simp at hf; simp [← hf]
        · simp [hn] at hf)
    "ghost"

/-! ## Map and session-store lemmas -/

theorem lookupA_setA_self {α : Type} (l : List (String × α)) (k : String) (v : α) :
    lookupA (setA l k v) k = some v := by
  induction l with
  | nil => simp [setA, lookupA]
  | cons p rest ih =>
    cases p with
    | mk k' w =>
      simp only [setA]
      split
      · next h => simp [lookupA]
      · next h => simp [lookupA, h, ih]

theorem lookupA_setA_ne {α : Type} (l : List (String × α)) (k k' : String) (v : α)
    (h : k' ≠ k) : lookupA (setA l k v) k' = lookupA l k' := by
  induction l with
  | nil => simp [setA, lookupA, h]
  | cons p rest ih =>
    cases p with
    | mk k₀ w =>
      simp only [setA]
      split
      · next heq =>
        subst heq
        simp [lookupA, h]
      · simp only [lookupA, ih]

theorem lookupA_delA {α : Type} (l : List (String × α)) (k k' : String) :
    lookupA (delA l k) k' = if k' = k then none else lookupA l k' := by
  induction l with
  | nil => simp [delA, lookupA]
  | cons p rest ih =>
    cases p with
    | mk k₀ w =>
      simp only [delA]
      by_cases h0 : k₀ = k
      · subst h0
        rw [if_pos rfl, ih]
        by_cases hk : k' = k₀
        · simp [hk]
        · simp [hk, lookupA]
      · rw [if_neg h0]
        simp only [lookupA, ih]
        by_cases hk : k' = k₀
        · subst hk
          simp [h0]
        · simp [hk]

theorem getState_of_mem (m : Manager) (sid : String) (st : SessionState)
    (h : lookupA m.sessions sid = some st) : getState m sid = (st, m) := by
  simp [getState, h]

theorem getState_snd_lookup (m : Manager) (sid : String) :
    lookupA (getState m sid).2.sessions sid = some (getState m sid).1 := by
  simp only [getState]
  cases h : lookupA m.sessions sid with
  | some st => simpa using h
  | none => simp [lookupA_setA_self]

theorem getState_snd_lookup_ne (m : Manager) (sid s : String) (h : s ≠ sid) :
    lookupA (getState m sid).2.sessions s = lookupA m.sessions s := by
  simp only [getState]
  cases hs : lookupA m.sessions sid with
  | some st => simp
  | none => simp [lookupA_setA_ne _ _ _ _ h]

theorem getState_snd_fields (m : Manager) (sid : String) :
    (getState m sid).2.pending = m.pending
    ∧ (getState m sid).2.analytics = m.analytics
    ∧ (getState m sid).2.skillCache = m.skillCache
    ∧ (getState m sid).2.initialSkillNames = m.initialSkillNames
    ∧ (getState m sid).2.initialTokensUsed = m.initialTokensUsed
    ∧ (getState m sid).2.analyticsEnabled = m.analyticsEnabled := by
  simp only [getState]
  cases hs : lookupA m.sessions sid <;> simp

theorem mem_addIfAbsent (l : List String) (x y : String) :
    y ∈ addIfAbsent l x ↔ y ∈ l ∨ y = x := by
  simp only [addIfAbsent]
  split
  · next h =>
    constructor
    · exact Or.inl
    · rintro (hy | rfl)
      · exact hy
      · exact h
  · simp

theorem addIfAbsent_nodup (l : List String) (x : String) (h : l.Nodup) :
    (addIfAbsent l x).Nodup := by
  simp only [addIfAbsent]
  split
  · exact h
  · next hx =>
    simpa [List.nodup_append] using ⟨h, fun hmem => hx hmem⟩

theorem foldl_addIfAbsent_nodup (skills : List ParsedSkill) :
    ∀ (acc : List String), acc.Nodup →
      (skills.foldl (fun a sk => addIfAbsent a sk.name) acc).Nodup := by
  induction skills with
  | nil => intro acc h; simpa using h
  | cons sk rest ih =>
    intro acc h
    simpa using ih (addIfAbsent acc sk.name) (addIfAbsent_nodup acc sk.name h)

theorem mem_foldl_addIfAbsent (skills : List ParsedSkill) :
    ∀ (acc : List String) (y : String),
      y ∈ skills.foldl (fun a sk => addIfAbsent a sk.name) acc
        ↔ y ∈ acc ∨ y ∈ skills.map (·.name) := by
  induction skills with
  | nil => intro acc y; simp
  | cons sk rest ih =>
    intro acc y
    simp only [List.foldl_cons, List.map_cons, List.mem_cons]
    rw [ih (addIfAbsent acc sk.name) y, mem_addIfAbsent]
    tauto

/-! ## C4 — loaded-set deduplication and no-op re-triggering -/

/-- Every session's loaded set holds each name at most once. -/
def LoadedSetsNodup (m : Manager) : Prop :=
  ∀ s st, lookupA m.sessions s = some st → st.loadedSkills.Nodup

theorem getState_loadedNodup (m : Manager) (sid : String) (h : LoadedSetsNodup m) :
    LoadedSetsNodup (getState m sid).2 ∧ (getState m sid).1.loadedSkills.Nodup := by
  simp only [getState]
  cases hs : lookupA m.sessions sid with
  | some st => exact ⟨h, h sid st hs⟩
  | none =>
    simp only
    constructor
    · intro s st hst
      by_cases hssid : s = sid
      · subst hssid
        rw [lookupA_setA_self] at hst
        cases hst
        exact dedupFirst_nodup _
      · rw [lookupA_setA_ne _ _ _ _ hssid] at hst
        exact h s st hst
    · exact dedupFirst_nodup _

/-- C4: `queueSkills` keeps every session's loaded set duplicate-free (names
already loaded are filtered out and the remainder is added with set
semantics, so a name occurs at most once); when every offered skill's name is
already in the session's loaded set, the call is a complete no-op (loaded
set, token total, pending queue and analytics all unchanged — the manager is
returned exactly as it was); and the updated loaded set holds exactly the
old names plus the offered names. -/
theorem queueSkills_dedup_noop :
    (∀ (m : Manager) (sid : String) (skills : List ParsedSkill)
        (tt : TriggerType) (now : Nat),
      LoadedSetsNodup m → LoadedSetsNodup (queueSkills m sid skills tt now))
    ∧ (∀ (m : Manager) (sid : String) (skills : List ParsedSkill)
        (tt : TriggerType) (now : Nat) (st : SessionState),
      lookupA m.sessions sid = some st →
      (∀ sk ∈ skills, sk.name ∈ st.loadedSkills) →
      queueSkills m sid skills tt now = m)
    ∧ (∀ (m : Manager) (sid : String) (skills : List ParsedSkill)
        (tt : TriggerType) (now : Nat) (st st' : SessionState),
      lookupA m.sessions sid = some st →
      lookupA (queueSkills m sid skills tt now).sessions sid = some st' →
      ∀ n, n ∈ st'.loadedSkills ↔ n ∈ st.loadedSkills ∨ n ∈ skills.map (·.name)) := by
  refine ⟨?_, ?_, ?_⟩
  · intro m sid skills tt now h
    simp only [queueSkills]
    obtain ⟨hsnd, hfst⟩ := getState_loadedNodup m sid h
    split
    · exact hsnd
    · intro s st hst
      by_cases hssid : s = sid
      · subst hssid
        simp only at hst
        rw [lookupA_setA_self] at hst
        cases hst
        exact foldl_addIfAbsent_nodup _ _ hfst
      · simp only at hst
        rw [lookupA_setA_ne _ _ _ _ hssid] at hst
        exact hsnd s st hst
  · intro m sid skills tt now st hst hall
    have h1 : skills.filter (fun sk => !decide (sk.name ∈ st.loadedSkills)) = [] := by
      refine List.filter_eq_nil_iff.mpr ?_
      intro sk hsk
      simpa using hall sk hsk
    have h2 : skills.filter (fun sk => decide (sk.name ∉ st.loadedSkills)) = [] := by
      refine List.filter_eq_nil_iff.mpr ?_
      intro sk hsk
      simpa using hall sk hsk
    simp only [queueSkills, getState_of_mem m sid st hst]
    simp [h1, h2]
  · intro m sid skills tt now st st' hst hst' n
    simp only [queueSkills, getState_of_mem m sid st hst] at hst'
    simp only [decide_not] at hst'
    by_cases hempty : skills.filter (fun sk => !decide (sk.name ∈ st.loadedSkills)) = []
    · rw [hempty] at hst'
      simp only [List.isEmpty_nil, if_true] at hst'
      rw [hst] at hst'
      cases hst'
      constructor
      · exact Or.inl
      · rintro (hn | hn)
        · exact hn
        · rcases List.mem_map.mp hn with ⟨sk, hsk, rfl⟩
          by_contra hload
          have : sk ∈ skills.filter (fun sk => !decide (sk.name ∈ st.loadedSkills)) :=
            List.mem_filter.mpr ⟨hsk, by simpa using hload⟩
          simp [hempty] at this
    · have hne : (skills.filter
          (fun sk => !decide (sk.name ∈ st.loadedSkills))).isEmpty = false := by
        simpa [List.isEmpty_iff] using hempty
      rw [hne] at hst'
      simp only [Bool.false_eq_true, if_false] at hst'
      rw [lookupA_setA_self] at hst'
      cases hst'
      simp only
      rw [mem_foldl_addIfAbsent]
      constructor
      · rintro (hn | hn)
        · exact Or.inl hn
        · rcases List.mem_map.mp hn with ⟨sk, hsk, rfl⟩
          exact Or.inr (List.mem_map.mpr ⟨sk, (List.mem_filter.mp hsk).1, rfl⟩)
      · rintro (hn | hn)
        · exact Or.inl hn
        · rcases List.mem_map.mp hn with ⟨sk, hsk, rfl⟩
          by_cases hload : sk.name ∈ st.loadedSkills
          · exact Or.inl hload
          · refine Or.inr (List.mem_map.mpr ⟨sk, List.mem_filter.mpr ⟨hsk, ?_⟩, rfl⟩)
            simpa using hload

/-- Witness for `queueSkills_dedup_noop` at a concrete manager: a skill
whose name is already loaded is a no-op, and the loaded set stays
duplicate-free. -/
theorem queueSkills_dedup_noop_witness :
    LoadedSetsNodup
      (queueSkills
        ⟨false, ["small"], 1, [("s", ⟨false, ["small"], 1⟩)], [], [], []⟩
        "s" [skSmall] .fileType 0)
    ∧ queueSkills
        ⟨false, ["small"], 1, [("s", ⟨false, ["small"], 1⟩)], [], [], []⟩
        "s" [skSmall] .fileType 0
      = ⟨false, ["small"], 1, [("s", ⟨false, ["small"], 1⟩)], [], [], []⟩ := by
  constructor
  · refine queueSkills_dedup_noop.1 _ "s" [skSmall] .fileType 0 ?_
    intro s st hst
    simp only [lookupA] at hst
    split at hst
    · cases hst; decide
    · cases hst
  · refine queueSkills_dedup_noop.2.1 _ "s" [skSmall] .fileType 0 ⟨false, ["small"], 1⟩ ?_ ?_
    · simp [lookupA]
    · intro sk hsk
      simp at hsk
      subst hsk
      decide

/-! ## Hook-level lemmas -/

theorem getState_idem (m : Manager) (sid : String) :
    getState (getState m sid).2 sid = ((getState m sid).1, (getState m sid).2) :=
  getState_of_mem _ _ _ (getState_snd_lookup m sid)

/-- After the (misnamed) `markInitialSkillsInjected` reset, the session's
injected flag reads `false`. -/
theorem markInitial_flag_false (m : Manager) (sid : String) :
    ((getState (markInitialSkillsInjected m sid) sid).1).initialSkillsInjected = false := by
  simp only [markInitialSkillsInjected]
  rw [getState_of_mem _ _ _
    (lookupA_setA_self (getState m sid).2.sessions sid
      { (getState m sid).1 with initialSkillsInjected := false })]

/-- With no agent-keyed skills and no content triggers configured, the
trigger half of the chat-message hook does nothing. -/
theorem chatTriggers_noop (cfg : Config) (disk : Disk) (m : Manager) (sid : String)
    (ag : Option String) (t : String) (now : Nat)
    (h1 : cfg.agentSkills = []) (h2 : cfg.contentTriggers = []) :
    chatTriggers cfg disk m sid ag t now = m := by
  simp only [chatTriggers, h1, h2, List.foldl_nil]
  cases ag with
  | none => rfl
  | some a =>
    by_cases ha : a = ""
    · simp [ha]
    · simp [ha, lookupA]

/-- First-injection evaluation of the injection half: un-injected flag,
non-empty initial block, empty pending queue. -/
theorem chatInject_first (hctx : HookCtx) (minify : String → String) (mgr : Manager)
    (sid t : String)
    (hflag : (getState mgr sid).1.initialSkillsInjected = false)
    (hifc : hctx.initialFormattedContent ≠ "")
    (hpend : lookupA mgr.pending sid = none) :
    chatInject hctx minify mgr sid t
      = ({ mgr with sessions := setA mgr.sessions sid ({ (getState mgr sid).1 with initialSkillsInjected := true }) }, some (hctx.initialFormattedContent ++ "\n\n---\n\n" ++ t)) := by
  simp only [chatInject, hflag, Bool.false_eq_true, not_false_eq_true, true_and, hifc,
    if_true, ne_eq, getPendingSkills]
  simp [hpend, String.intercalate, String.intercalate.go]

/-- Re-injection evaluation: flag already set, empty pending queue — the
hook leaves the manager alone and produces no replacement text. -/
theorem chatInject_injected (hctx : HookCtx) (minify : String → String) (mgr : Manager)
    (sid t : String)
    (hflag : (getState mgr sid).1.initialSkillsInjected = true)
    (hpend : lookupA mgr.pending sid = none) :
    chatInject hctx minify mgr sid t = (mgr, none) := by
  simp only [chatInject, hflag, getPendingSkills]
  simp [hpend]

/-! ## C10 — a message without a text part triggers nothing -/

/-- C10: when the incoming message's parts contain no text part, the
chat-message handler returns without evaluating agent or keyword triggers,
without queuing or loading any skill, without setting the injected flag and
without touching the parts: the result is exactly the input manager (up to
the lazy materialisation `getState` performs on first contact, which for an
already-tracked session is the identity, as the second conjunct states) and
the unmodified parts list — for every configuration, in particular one whose
agent-keyed triggers would otherwise match. -/
theorem chatMessage_no_text_part_noop :
    (∀ (hctx : HookCtx) (minify : String → String) (disk : Disk) (now : Nat)
        (mgr : Manager) (input : ChatInput) (parts : List Part),
      input.sessionID ≠ "" →
      findTextPartIdx parts = none →
      chatMessage hctx minify disk now mgr input parts
        = ((getState mgr input.sessionID).2, parts))
    ∧ (∀ (mgr : Manager) (sid : String) (st : SessionState),
      lookupA mgr.sessions sid = some st → (getState mgr sid).2 = mgr) := by
  constructor
  · intro hctx minify disk now mgr input parts hsid hidx
    simp [chatMessage, hsid, hidx]
  · intro mgr sid st hst
    rw [getState_of_mem mgr sid st hst]

/-- Witness for `chatMessage_no_text_part_noop`: a tracked session, an
agent with configured agent skills, and a message whose only part is a file
part — the handler changes nothing. -/
theorem chatMessage_no_text_part_noop_witness :
    chatMessage
      ⟨⟨[], [("build", ["sk"])], [], [], [], [], none, false, false, .chatMessage, true, false⟩,
        [], "block"⟩
      id (fun _ => none) 0
      ⟨false, [], 0, [("s", ⟨false, [], 0⟩)], [], [], []⟩
      ⟨"s", some "build"⟩ [⟨"file", none⟩]
    = (⟨false, [], 0, [("s", ⟨false, [], 0⟩)], [], [], []⟩, [⟨"file", none⟩]) := by
  rw [chatMessage_no_text_part_noop.1
    ⟨⟨[], [("build", ["sk"])], [], [], [], [], none, false, false, .chatMessage, true, false⟩,
      [], "block"⟩
    id (fun _ => none) 0
    ⟨false, [], 0, [("s", ⟨false, [], 0⟩)], [], [], []⟩
    ⟨"s", some "build"⟩ [⟨"file", none⟩] (by decide) (by decide)]
  rw [chatMessage_no_text_part_noop.2
    ⟨false, [], 0, [("s", ⟨false, [], 0⟩)], [], [], []⟩ "s" ⟨false, [], 0⟩ (by rfl)]

/-! ## C8 — compaction persistence -/

/-- C8: with persistence enabled and a non-empty set of loaded skills for
the session, the compaction handler appends exactly one entry to the
compaction context — the rendered form of all the session's loaded skills —
and resets the injected flag; with persistence disabled, or with nothing
loaded for the session, it appends nothing and leaves the manager exactly as
it was. -/
theorem compaction_behavior :
    (∀ (hctx : HookCtx) (minify : String → String) (mgr : Manager)
        (sid : String) (context : List String),
      hctx.cfg.persistAfterCompaction = true →
      getAllLoadedSkills mgr sid ≠ [] →
      compacting hctx minify mgr sid context
        = (markInitialSkillsInjected mgr sid,
           context ++ [compactionEntry minify (getAllLoadedSkills mgr sid)
             hctx.cfg.formatOptions]))
    ∧ (∀ (mgr : Manager) (sid : String),
      ((getState (markInitialSkillsInjected mgr sid) sid).1).initialSkillsInjected = false)
    ∧ (∀ (hctx : HookCtx) (minify : String → String) (mgr : Manager)
        (sid : String) (context : List String),
      hctx.cfg.persistAfterCompaction = false →
      compacting hctx minify mgr sid context = (mgr, context))
    ∧ (∀ (hctx : HookCtx) (minify : String → String) (mgr : Manager)
        (sid : String) (context : List String),
      getAllLoadedSkills mgr sid = [] →
      compacting hctx minify mgr sid context = (mgr, context)) := by
  refine ⟨?_, ?_, ?_, ?_⟩
  · intro hctx minify mgr sid context hp hne
    simp [compacting, hp, List.isEmpty_iff, hne]
  · intro mgr sid
    exact markInitial_flag_false mgr sid
  · intro hctx minify mgr sid context hp
    simp [compacting, hp]
  · intro hctx minify mgr sid context h
    by_cases hp : hctx.cfg.persistAfterCompaction
    · simp [compacting, hp, h]
    · simp [compacting, hp]

/-- Witness for `compaction_behavior` at a concrete session with one loaded
and cached skill, plus the two no-op branches. -/
theorem compaction_behavior_witness :
    compacting
      ⟨⟨[], [], [], [], [], [], none, false, false, .chatMessage, true, false⟩, [], ""⟩
      id
      ⟨false, ["small"], 1, [("s", ⟨true, ["small"], 1⟩)], [], [], [("small", skSmall)]⟩
      "s" []
    = (markInitialSkillsInjected
        ⟨false, ["small"], 1, [("s", ⟨true, ["small"], 1⟩)], [], [], [("small", skSmall)]⟩ "s",
       [compactionEntry id
         (getAllLoadedSkills
           ⟨false, ["small"], 1, [("s", ⟨true, ["small"], 1⟩)], [], [], [("small", skSmall)]⟩ "s")
         (Config.formatOptions
           ⟨[], [], [], [], [], [], none, false, false, .chatMessage, true, false⟩)])
    ∧ compacting
        ⟨⟨[], [], [], [], [], [], none, false, false, .chatMessage, false, false⟩, [], ""⟩
        id
        ⟨false, [], 0, [], [], [], []⟩ "s" []
      = (⟨false, [], 0, [], [], [], []⟩, [])
    ∧ compacting
        ⟨⟨[], [], [], [], [], [], none, false, false, .chatMessage, true, false⟩, [], ""⟩
        id
        ⟨false, [], 0, [], [], [], []⟩ "s" []
      = (⟨false, [], 0, [], [], [], []⟩, []) := by
  refine ⟨?_, ?_, ?_⟩
  · have h := compaction_behavior.1
      ⟨⟨[], [], [], [], [], [], none, false, false, .chatMessage, true, false⟩, [], ""⟩
      id
      ⟨false, ["small"], 1, [("s", ⟨true, ["small"], 1⟩)], [], [], [("small", skSmall)]⟩
      "s" [] rfl (by decide)
    simpa using h
  · exact compaction_behavior.2.2.1
      ⟨⟨[], [], [], [], [], [], none, false, false, .chatMessage, false, false⟩, [], ""⟩
      id ⟨false, [], 0, [], [], [], []⟩ "s" [] rfl
  · exact compaction_behavior.2.2.2
      ⟨⟨[], [], [], [], [], [], none, false, false, .chatMessage, true, false⟩, [], ""⟩
      id ⟨false, [], 0, [], [], [], []⟩ "s" [] (by decide)

/-! ## C3 — idempotent initial injection (chat-message method) -/

/-- Full evaluation of the chat-message handler on a first, un-injected
message of a session, with no agent/content triggers configured and an
empty pending queue: the initial block is prepended to the text and the
flag is set. -/
theorem chatMessage_first_eval
    (hctx : HookCtx) (minify : String → String) (disk : Disk) (now : Nat)
    (mgr : Manager) (sid : String) (ag : Option String) (t : String)
    (hmeth : hctx.cfg.injectionMethod = .chatMessage)
    (hag : hctx.cfg.agentSkills = []) (hct : hctx.cfg.contentTriggers = [])
    (hifc : hctx.initialFormattedContent ≠ "") (hsid : sid ≠ "")
    (hpend : lookupA mgr.pending sid = none)
    (hflag : (getState mgr sid).1.initialSkillsInjected = false) :
    chatMessage hctx minify disk now mgr ⟨sid, ag⟩ [⟨"text", some t⟩]
      = ({ (getState mgr sid).2 with sessions := setA (getState mgr sid).2.sessions sid ({ (getState mgr sid).1 with initialSkillsInjected := true }) }, [⟨"text", some (hctx.initialFormattedContent ++ "\n\n---\n\n" ++ t)⟩]) := by
  have hA1 : (getState (getState mgr sid).2 sid).1 = (getState mgr sid).1 := by
    rw [getState_idem]
  have hA2 : (getState mgr sid).2.pending = mgr.pending := (getState_snd_fields mgr sid).1
  have hinj := chatInject_first hctx minify (getState mgr sid).2 sid t
    (by rw [hA1]; exact hflag) hifc (by rw [hA2]; exact hpend)
  rw [hA1] at hinj
  simp only [chatMessage, if_neg hsid]
  rw [show findTextPartIdx [(⟨"text", some t⟩ : Part)] = some 0 from rfl]
  simp only [List.getElem?_cons_zero]
  rw [chatTriggers_noop hctx.cfg disk _ sid ag t now hag hct]
  rw [if_neg (by rw [hmeth]; intro hc; cases hc)]
  rw [hinj]
  simp [List.set]

/-- Full evaluation of the chat-message handler on a message of a session
whose flag is already set, with no agent/content triggers configured and an
empty pending queue: a complete no-op. -/
theorem chatMessage_injected_eval
    (hctx : HookCtx) (minify : String → String) (disk : Disk) (now : Nat)
    (mgr : Manager) (sid : String) (ag : Option String) (t : String)
    (st : SessionState)
    (hmeth : hctx.cfg.injectionMethod = .chatMessage)
    (hag : hctx.cfg.agentSkills = []) (hct : hctx.cfg.contentTriggers = [])
    (hsid : sid ≠ "")
    (hst : lookupA mgr.sessions sid = some st)
    (hflag : st.initialSkillsInjected = true)
    (hpend : lookupA mgr.pending sid = none) :
    chatMessage hctx minify disk now mgr ⟨sid, ag⟩ [⟨"text", some t⟩]
      = (mgr, [⟨"text", some t⟩]) := by
  have hgs : getState mgr sid = (st, mgr) := getState_of_mem mgr sid st hst
  have hinj := chatInject_injected hctx minify mgr sid t (by rw [hgs]; exact hflag) hpend
  simp only [chatMessage, if_neg hsid]
  rw [show findTextPartIdx [(⟨"text", some t⟩ : Part)] = some 0 from rfl]
  simp only [List.getElem?_cons_zero]
  rw [hgs]
  rw [chatTriggers_noop hctx.cfg disk mgr sid ag t now hag hct]
  rw [if_neg (by rw [hmeth]; intro hc; cases hc)]
  rw [hinj]

/-- C3: with the chat-message injection method, the first message of a
session gets the always-loaded skills' rendered block prepended (separated
by the visible `---` separator) and sets the injected flag; a second message
for the same session is left completely unmodified (manager and parts alike),
so the flag witnesses at most one initial injection; and a compaction reset
(`markInitialSkillsInjected`) sets the flag back to `false`. -/
theorem chat_injection_idempotent
    (hctx : HookCtx) (minify : String → String) (disk : Disk) (now now2 : Nat)
    (mgr : Manager) (sid : String) (ag ag2 : Option String) (t t2 : String)
    (hmeth : hctx.cfg.injectionMethod = .chatMessage)
    (hag : hctx.cfg.agentSkills = []) (hct : hctx.cfg.contentTriggers = [])
    (hifc : hctx.initialFormattedContent ≠ "") (hsid : sid ≠ "")
    (hpend : lookupA mgr.pending sid = none)
    (hflag : (getState mgr sid).1.initialSkillsInjected = false) :
    (chatMessage hctx minify disk now mgr ⟨sid, ag⟩ [⟨"text", some t⟩]).2
        = [⟨"text", some (hctx.initialFormattedContent ++ "\n\n---\n\n" ++ t)⟩]
    ∧ ((getState (chatMessage hctx minify disk now mgr ⟨sid, ag⟩ [⟨"text", some t⟩]).1 sid).1).initialSkillsInjected = true
    ∧ chatMessage hctx minify disk now2
        (chatMessage hctx minify disk now mgr ⟨sid, ag⟩ [⟨"text", some t⟩]).1
        ⟨sid, ag2⟩ [⟨"text", some t2⟩]
      = ((chatMessage hctx minify disk now mgr ⟨sid, ag⟩ [⟨"text", some t⟩]).1,
         [⟨"text", some t2⟩])
    ∧ ((getState (markInitialSkillsInjected
          (chatMessage hctx minify disk now mgr ⟨sid, ag⟩ [⟨"text", some t⟩]).1 sid) sid).1).initialSkillsInjected = false := by
  have e1 := chatMessage_first_eval hctx minify disk now mgr sid ag t
    hmeth hag hct hifc hsid hpend hflag
  have hlookB : lookupA (chatMessage hctx minify disk now mgr ⟨sid, ag⟩ [⟨"text", some t⟩]).1.sessions sid
      = some ({ (getState mgr sid).1 with initialSkillsInjected := true }) := by
    rw [e1]
    exact lookupA_setA_self _ _ _
  have hpendB : lookupA (chatMessage hctx minify disk now mgr ⟨sid, ag⟩ [⟨"text", some t⟩]).1.pending sid = none := by
    rw [e1]
    simpa [(getState_snd_fields mgr sid).1] using hpend
  refine ⟨by rw [e1], ?_, ?_, ?_⟩
  · rw [getState_of_mem _ _ _ hlookB]
  · exact chatMessage_injected_eval hctx minify disk now2 _ sid ag2 t2
      ({ (getState mgr sid).1 with initialSkillsInjected := true })
      hmeth hag hct hsid hlookB rfl hpendB
  · exact markInitial_flag_false _ sid

/-! ## C2 — the token cap as a session invariant -/

/-- The invariant: the manager's seed total and every tracked session's
cumulative token total stay within the cap. -/
def TokensInv (m : Manager) (cap : Int) : Prop :=
  ((m.initialTokensUsed : Int) ≤ cap)
  ∧ ∀ sid st, lookupA m.sessions sid = some st → ((st.totalTokensUsed : Int) ≤ cap)

theorem inv_getState (m : Manager) (sid : String) (cap : Int) (h : TokensInv m cap) :
    TokensInv (getState m sid).2 cap
    ∧ (((getState m sid).1).totalTokensUsed : Int) ≤ cap := by
  simp only [getState]
  cases hs : lookupA m.sessions sid with
  | some st => exact ⟨h, h.2 sid st hs⟩
  | none =>
    simp only
    refine ⟨⟨h.1, ?_⟩, h.1⟩
    intro s st hst
    by_cases hssid : s = sid
    · subst hssid
      rw [lookupA_setA_self] at hst
      cases hst
      exact h.1
    · rw [lookupA_setA_ne _ _ _ _ hssid] at hst
      exact h.2 s st hst

/-- Replacing (or inserting) one session state whose total fits the cap
preserves the invariant. -/
theorem inv_setState (m : Manager) (sid : String) (st' : SessionState) (cap : Int)
    (h : TokensInv m cap) (hle : (st'.totalTokensUsed : Int) ≤ cap) :
    TokensInv { m with sessions := setA m.sessions sid st' } cap := by
  refine ⟨h.1, ?_⟩
  intro s st hst
  simp only at hst
  by_cases hssid : s = sid
  · subst hssid
    rw [lookupA_setA_self] at hst
    cases hst
    exact hle
  · rw [lookupA_setA_ne _ _ _ _ hssid] at hst
    exact h.2 s st hst

theorem inv_queueSkills (m : Manager) (sid : String) (skills : List ParsedSkill)
    (tt : TriggerType) (now : Nat) (cap : Int)
    (hinv : TokensInv m cap)
    (hadd : ((((getState m sid).1).totalTokensUsed + calculateTotalTokens skills : Nat) : Int) ≤ cap) :
    TokensInv (queueSkills m sid skills tt now) cap := by
  simp only [queueSkills, decide_not]
  split
  · exact (inv_getState m sid cap hinv).1
  · refine ⟨?_, ?_⟩
    · exact (inv_getState m sid cap hinv).1.1
    · intro s st hst
      simp only at hst
      by_cases hssid : s = sid
      · rw [hssid, lookupA_setA_self] at hst
        cases hst
        simp only
        have h1 := calcTotal_filter_le
          (fun sk => !decide (sk.name ∈ ((getState m sid).1).loadedSkills)) skills
        push_cast at hadd ⊢
        omega
      · rw [lookupA_setA_ne _ _ _ _ hssid] at hst
        exact (inv_getState m sid cap hinv).1.2 s st hst

theorem inv_resolveAndQueue (cfg : Config) (disk : Disk) (m : Manager) (sid : String)
    (names : List String) (tt : TriggerType) (now : Nat) (cap : Int)
    (hcap : cfg.maxTokens = some cap) (hcap0 : cap ≠ 0)
    (hinv : TokensInv m cap) :
    TokensInv (resolveAndQueue cfg disk m sid names tt now) cap := by
  simp only [resolveAndQueue]
  split
  · exact (inv_getState m sid cap hinv).1
  · refine inv_queueSkills (getState m sid).2 sid _ tt now cap
      (inv_getState m sid cap hinv).1 ?_
    rw [getState_idem]
    exact loadWithBudget_total_le cfg disk names ((getState m sid).1).totalTokensUsed cap
      hcap hcap0 (inv_getState m sid cap hinv).2

theorem inv_contentFoldl (cfg : Config) (disk : Disk) (sid : String)
    (t : String) (now : Nat) (cap : Int)
    (hcap : cfg.maxTokens = some cap) (hcap0 : cap ≠ 0) :
    ∀ (l : List (String × List String)) (m1 : Manager), TokensInv m1 cap →
      TokensInv (l.foldl
        (fun acc kv =>
          if textContainsKeyword t [kv.1] then
            resolveAndQueue cfg disk acc sid kv.2 .content now
          else acc) m1) cap := by
  intro l
  induction l with
  | nil => intro m1 h; simpa using h
  | cons kv rest ih =>
    intro m1 h
    simp only [List.foldl_cons]
    by_cases hkw : textContainsKeyword t [kv.1] = true
    · simp only [hkw, if_true]
      exact ih _ (inv_resolveAndQueue cfg disk m1 sid kv.2 .content now cap hcap hcap0 h)
    · simp only [Bool.not_eq_true] at hkw
      simp only [hkw, Bool.false_eq_true, if_false]
      exact ih _ h

theorem inv_chatTriggers (cfg : Config) (disk : Disk) (m : Manager) (sid : String)
    (ag : Option String) (t : String) (now : Nat) (cap : Int)
    (hcap : cfg.maxTokens = some cap) (hcap0 : cap ≠ 0)
    (hinv : TokensInv m cap) :
    TokensInv (chatTriggers cfg disk m sid ag t now) cap := by
  simp only [chatTriggers]
  apply inv_contentFoldl cfg disk sid t now cap hcap hcap0
  cases ag with
  | none => exact hinv
  | some a =>
    by_cases ha : a = ""
    · simpa [ha] using hinv
    · simp only [ha, if_false]
      cases lookupA cfg.agentSkills a with
      | some ns => exact inv_resolveAndQueue cfg disk m sid ns .agent now cap hcap hcap0 hinv
      | none => exact hinv

theorem inv_clearPending (m : Manager) (sid : String) (cap : Int)
    (hinv : TokensInv m cap) : TokensInv (clearPendingSkills m sid) cap :=
  ⟨hinv.1, fun s st hst => hinv.2 s st hst⟩

theorem inv_chatInject (hctx : HookCtx) (minify : String → String) (m : Manager)
    (sid t : String) (cap : Int) (hinv : TokensInv m cap) :
    TokensInv (chatInject hctx minify m sid t).1 cap := by
  have hset : TokensInv { m with sessions := setA m.sessions sid ({ (getState m sid).1 with initialSkillsInjected := true }) } cap :=
    inv_setState m sid _ cap hinv (inv_getState m sid cap hinv).2
  simp only [chatInject]
  split
  · split
    · split <;> exact hset
    · split <;> exact inv_clearPending _ sid cap hset
  · split
    · split <;> exact hinv
    · split <;> exact inv_clearPending _ sid cap hinv

theorem inv_chatMessage (hctx : HookCtx) (minify : String → String) (disk : Disk)
    (now : Nat) (m : Manager) (input : ChatInput) (parts : List Part) (cap : Int)
    (hcap : hctx.cfg.maxTokens = some cap) (hcap0 : cap ≠ 0)
    (hinv : TokensInv m cap) :
    TokensInv (chatMessage hctx minify disk now m input parts).1 cap := by
  simp only [chatMessage]
  split
  · exact hinv
  · have hA := (inv_getState m input.sessionID cap hinv).1
    split
    · exact hA
    · split
      · exact hA
      · next part hpart =>
        split
        · exact hA
        · next messageText htext =>
          have hT := inv_chatTriggers hctx.cfg disk (getState m input.sessionID).2
            input.sessionID input.agent messageText now cap hcap hcap0 hA
          split
          · exact hT
          · split
            · exact inv_chatInject hctx minify _ input.sessionID messageText cap hT
            · exact inv_chatInject hctx minify _ input.sessionID messageText cap hT

theorem inv_markInitial (m : Manager) (sid : String) (cap : Int)
    (hinv : TokensInv m cap) :
    TokensInv (markInitialSkillsInjected m sid) cap := by
  simp only [markInitialSkillsInjected]
  exact inv_setState (getState m sid).2 sid _ cap (inv_getState m sid cap hinv).1
    (inv_getState m sid cap hinv).2

theorem inv_compacting (hctx : HookCtx) (minify : String → String) (m : Manager)
    (sid : String) (context : List String) (cap : Int) (hinv : TokensInv m cap) :
    TokensInv (compacting hctx minify m sid context).1 cap := by
  simp only [compacting]
  split
  · exact hinv
  · split
    · exact hinv
    · exact inv_markInitial m sid cap hinv

theorem inv_cleanup (m : Manager) (sid : String) (cap : Int) (hinv : TokensInv m cap) :
    TokensInv (cleanup m sid) cap := by
  refine ⟨hinv.1, ?_⟩
  intro s st hst
  simp only [cleanup] at hst
  rw [lookupA_delA] at hst
  split at hst
  · cases hst
  · exact hinv.2 s st hst

theorem inv_applyOp (hctx : HookCtx) (minify : String → String) (disk : Disk)
    (m : Manager) (op : Op) (cap : Int)
    (hcap : hctx.cfg.maxTokens = some cap) (hcap0 : cap ≠ 0)
    (hinv : TokensInv m cap) :
    TokensInv (applyOp hctx minify disk m op) cap := by
  cases op with
  | trigger sid names tt now =>
    exact inv_resolveAndQueue hctx.cfg disk m sid names tt now cap hcap hcap0 hinv
  | chatMsg input parts now =>
    exact inv_chatMessage hctx minify disk now m input parts cap hcap hcap0 hinv
  | compact sid => exact inv_compacting hctx minify m sid [] cap hinv
  | sessionDeleted sid => exact inv_cleanup m sid cap hinv

theorem inv_applyOps (hctx : HookCtx) (minify : String → String) (disk : Disk)
    (ops : List Op) (cap : Int)
    (hcap : hctx.cfg.maxTokens = some cap) (hcap0 : cap ≠ 0) :
    ∀ (m : Manager), TokensInv m cap →
      TokensInv (applyOps hctx minify disk m ops) cap := by
  induction ops with
  | nil => intro m hinv; simpa [applyOps] using hinv
  | cons op rest ih =>
    intro m hinv
    simp only [applyOps, List.foldl_cons]
    exact ih _ (inv_applyOp hctx minify disk m op cap hcap hcap0 hinv)

theorem pluginInit_tokens_le (cfg : Config) (dir : String) (fs : FsEnv) (disk : Disk)
    (cap : Int) (hcap : cfg.maxTokens = some cap) (hpos : 0 < cap) :
    (((pluginInit cfg dir fs disk).initialTokensUsed : Nat) : Int) ≤ cap := by
  simp only [pluginInit, hcap]
  split
  · exact budgetFilter_total_le _ cap (by omega)
  · next hguard =>
    rw [not_and_or] at hguard
    rcases hguard with h | h
    · exact absurd (by omega : cap ≠ 0) h
    · simpa using h

theorem inv_initManager (cfg : Config) (dir : String) (fs : FsEnv) (disk : Disk)
    (cap : Int) (hcap : cfg.maxTokens = some cap) (hpos : 0 < cap) :
    TokensInv (initManager cfg (pluginInit cfg dir fs disk)) cap := by
  refine ⟨pluginInit_tokens_le cfg dir fs disk cap hcap hpos, ?_⟩
  intro s st hst
  simp only [initManager, lookupA] at hst
  exact Option.noConfusion hst

/-- C2 (amended): when a *positive* global token cap is configured, every
session's cumulative token total — the initial seeding plus every
`queueSkills` increase performed by any sequence of trigger, chat-message,
compaction and deletion events — never exceeds the cap. -/
theorem tokenCap_invariant
    (hctx : HookCtx) (minify : String → String) (disk : Disk)
    (dir : String) (fs : FsEnv) (cap : Int) (ops : List Op)
    (hcap : hctx.cfg.maxTokens = some cap) (hpos : 0 < cap) :
    ∀ (sid : String) (st : SessionState),
      lookupA (applyOps hctx minify disk
        (initManager hctx.cfg (pluginInit hctx.cfg dir fs disk)) ops).sessions sid
        = some st →
      (st.totalTokensUsed : Int) ≤ cap := by
  have hinv := inv_applyOps hctx minify disk ops cap hcap (by omega)
    (initManager hctx.cfg (pluginInit hctx.cfg dir fs disk))
    (inv_initManager hctx.cfg dir fs disk cap hcap hpos)
  exact hinv.2

/-- A configuration with a cap of `0` and one always-load skill. -/
def cfgZeroCap : Config :=
  ⟨["a"], [], [], [], [], [], some 0, false, false, .chatMessage, true, false⟩

/-- A disk holding one skill of one token. -/
def diskOneToken : Disk := fun n =>
  if n = "a" then some ⟨"/p/SKILL.md", "aaaa", none, none, none, "aaaa"⟩ else none

def fsEmpty : FsEnv := ⟨fun _ => false, none, fun _ => none⟩

/-- C2 counterexample: with the cap *configured* as `0` (a legal `maxTokens`
value), the JS truthiness guard `if (config.maxTokens)` disables enforcement
entirely, so a session seeded with a one-token skill carries a cumulative
total of `1 > 0`: the claim fails for a configured cap of zero. -/
theorem tokenCap_zero_cap_exceeded_cex :
    cfgZeroCap.maxTokens = some 0
    ∧ (lookupA (applyOps ⟨cfgZeroCap, [], ""⟩ id diskOneToken
          (initManager cfgZeroCap (pluginInit cfgZeroCap "/proj" fsEmpty diskOneToken))
          [.trigger "s" [] .initial 0]).sessions "s").map (·.totalTokensUsed)
        = some 1
    ∧ ¬ ((1 : Int) ≤ 0) := by
  refine ⟨rfl, by decide, by decide⟩

/-- Witness for `tokenCap_invariant` at a concrete configuration with cap 5,
one one-token skill, and one trigger event. -/
theorem tokenCap_invariant_witness :
    (((⟨false, ["a"], 1⟩ : SessionState).totalTokensUsed : Int)) ≤ 5 := by
  exact tokenCap_invariant
    ⟨⟨["a"], [], [], [], [], [], some 5, false, false, .chatMessage, true, false⟩, [], ""⟩
    id diskOneToken "/proj" fsEmpty 5 [.trigger "s" [] .initial 0] rfl (by decide)
    "s" ⟨false, ["a"], 1⟩ (by decide)

/-- Witness for `chat_injection_idempotent` at a concrete plugin context and
fresh manager. -/
theorem chat_injection_idempotent_witness :
    (chatMessage
        ⟨⟨[], [], [], [], [], [], none, false, false, .chatMessage, true, false⟩, [], "BLOCK"⟩
        id (fun _ => none) 0 ⟨false, [], 0, [], [], [], []⟩
        ⟨"s", none⟩ [⟨"text", some "hi"⟩]).2
      = [⟨"text", some ("BLOCK" ++ "\n\n---\n\n" ++ "hi")⟩] := by
  exact (chat_injection_idempotent
    ⟨⟨[], [], [], [], [], [], none, false, false, .chatMessage, true, false⟩, [], "BLOCK"⟩
    id (fun _ => none) 0 0 ⟨false, [], 0, [], [], [], []⟩ "s" none none "hi" "x"
    rfl rfl rfl (by decide) (by decide) rfl (by rfl)).1

end PreloadSkills
